import Mathlib

/-!
Shallow embedding of the market-basket core of the ItemRelationDSS repository
(src/market_basket.py) and verification of its specification claims.

Modelling conventions:
* The boolean incidence matrix `basket_df` is modelled as a list of rows, each
  row being the finite set of item columns holding `True` in that row.
* Python floats are modelled as exact rationals (`ℚ`); all the constants in the
  claims (0.5, 0.75, …) are exactly representable.
* Fallible entry points return `Except String`; `pandas` DataFrames of itemsets
  and rules are modelled as lists of records.
* The mining and rule-expansion primitives (`fpgrowth`, `association_rules`)
  come from the external `mlxtend` library, whose source is not part of this
  repository; they are modelled from the spec (see their doc comments).
  Wrapper logic (`generate_frequent_itemsets`, `generate_rules`,
  `filter_rules_by_product`) is embedded directly from src/market_basket.py.
* Python iterates frozensets in an unspecified order; the model fixes that
  order to be sorted by a lexicographic order on the items' character codes
  (`strLe` below), which is one deterministic choice of that order.
* `Series.str.contains(keyword, case=False)` is modelled as case-insensitive
  substring containment (`containsCI`), valid for keywords free of regex
  metacharacters, with ASCII lowercasing.
-/

namespace ItemRelationDSS

/-- A row of the boolean incidence matrix: the set of item columns that are
`True` in that transaction. -/
abbrev Txn := Finset String

/-- Number of transactions containing every item of `s`. -/
def supportCount (txns : List Txn) (s : Finset String) : Nat :=
  (txns.filter (fun t => decide (s ⊆ t))).length

/-- Exact support of `s`: (count of transactions containing all of `s`) / N. -/
def support (txns : List Txn) (s : Finset String) : ℚ :=
  (supportCount txns s : ℚ) / (txns.length : ℚ)

/-- The item vocabulary: union of all transactions (the occupied columns). -/
def vocabulary (txns : List Txn) : Finset String :=
  txns.foldr (· ∪ ·) ∅

/-! Canonical enumeration of a `Finset String`: an executable stand-in for
Python's (unspecified but deterministic) frozenset iteration order. -/

/-- Lexicographic comparison of character-code lists. -/
def lexLe : List Nat → List Nat → Bool
  | [], _ => true
  | _ :: _, [] => false
  | a :: as, b :: bs =>
    if a < b then true else if b < a then false else lexLe as bs

/-- Total deterministic order on item labels (lexicographic on char codes). -/
def strLe (a b : String) : Bool :=
  lexLe (a.data.map Char.toNat) (b.data.map Char.toNat)

/-- Insert a label into a `strLe`-sorted list, keeping it sorted. -/
def insertStr (a : String) : List String → List String
  | [] => [a]
  | b :: l => if strLe a b = true then a :: b :: l else b :: insertStr a l

theorem lexLe_trans : ∀ {l₁ l₂ l₃ : List Nat},
    lexLe l₁ l₂ = true → lexLe l₂ l₃ = true → lexLe l₁ l₃ = true
  | [], _, _, _, _ => rfl
  | _ :: _, [], _, h1, _ => by simp [lexLe] at h1
  | _ :: _, _ :: _, [], _, h2 => by simp [lexLe] at h2
  | a :: as, b :: bs, c :: cs, h1, h2 => by
    simp only [lexLe] at h1 h2 ⊢
    rcases Nat.lt_trichotomy a b with hab | rfl | hba
    · rcases Nat.lt_trichotomy b c with hbc | rfl | hcb
      · simp [Nat.lt_trans hab hbc]
      · simp [hab]
      · rw [if_neg (Nat.lt_asymm hcb), if_pos hcb] at h2; cases h2
    · rw [if_neg (Nat.lt_irrefl a), if_neg (Nat.lt_irrefl a)] at h1
      by_cases hac : a < c
      · simp [hac]
      · rw [if_neg hac] at h2 ⊢
        by_cases hca : c < a
        · rw [if_pos hca] at h2; cases h2
        · rw [if_neg hca] at h2 ⊢; exact lexLe_trans h1 h2
    · rw [if_neg (Nat.lt_asymm hba), if_pos hba] at h1; cases h1

theorem lexLe_total : ∀ (l₁ l₂ : List Nat), lexLe l₁ l₂ = true ∨ lexLe l₂ l₁ = true
  | [], _ => Or.inl rfl
  | _ :: _, [] => Or.inr rfl
  | a :: as, b :: bs => by
    simp only [lexLe]
    rcases Nat.lt_trichotomy a b with hab | rfl | hba
    · exact Or.inl (by simp [hab])
    · simpa [Nat.lt_irrefl] using lexLe_total as bs
    · exact Or.inr (by simp [hba])

theorem lexLe_antisymm : ∀ {l₁ l₂ : List Nat},
    lexLe l₁ l₂ = true → lexLe l₂ l₁ = true → l₁ = l₂
  | [], [], _, _ => rfl
  | [], _ :: _, _, h2 => by simp [lexLe] at h2
  | _ :: _, [], h1, _ => by simp [lexLe] at h1
  | a :: as, b :: bs, h1, h2 => by
    simp only [lexLe] at h1 h2
    rcases Nat.lt_trichotomy a b with hab | rfl | hba
    · rw [if_neg (Nat.lt_asymm hab), if_pos hab] at h2; cases h2
    · rw [if_neg (Nat.lt_irrefl a), if_neg (Nat.lt_irrefl a)] at h1 h2
      rw [lexLe_antisymm h1 h2]
    · rw [if_neg (Nat.lt_asymm hba), if_pos hba] at h1; cases h1

theorem strLe_trans {a b c : String} (h1 : strLe a b = true)
    (h2 : strLe b c = true) : strLe a c = true :=
  lexLe_trans h1 h2

theorem strLe_total (a b : String) : strLe a b = true ∨ strLe b a = true :=
  lexLe_total _ _

theorem strLe_antisymm {a b : String} (h1 : strLe a b = true)
    (h2 : strLe b a = true) : a = b := by
  have hk : a.data.map Char.toNat = b.data.map Char.toNat := lexLe_antisymm h1 h2
  have hinj : Function.Injective Char.toNat := fun c₁ c₂ h =>
    Char.eq_of_val_eq (UInt32.toNat.inj h)
  have hd : a.data = b.data := List.map_injective_iff.2 hinj hk
  cases a; cases b
  exact congrArg String.mk hd

theorem insertStr_perm (a : String) : ∀ l : List String, (insertStr a l).Perm (a :: l)
  | [] => List.Perm.refl _
  | b :: l => by
    rw [insertStr]
    by_cases h : strLe a b = true
    · rw [if_pos h]
    · rw [if_neg h]
      exact ((insertStr_perm a l).cons b).trans (List.Perm.swap a b l)

theorem insertStr_left_comm (a b : String) :
    ∀ l : List String, insertStr a (insertStr b l) = insertStr b (insertStr a l)
  | [] => by
    cases hab : strLe a b with
    | true =>
      cases hba : strLe b a with
      | true => rw [strLe_antisymm hab hba]
      | false => simp [insertStr, hab, hba]
    | false =>
      have hba : strLe b a = true := (strLe_total a b).resolve_left (by simp [hab])
      simp [insertStr, hab, hba]
  | c :: l => by
    cases hbc : strLe b c with
    | true =>
      cases hac : strLe a c with
      | true =>
        cases hab : strLe a b with
        | true =>
          cases hba : strLe b a with
          | true => rw [strLe_antisymm hab hba]
          | false => simp [insertStr, hab, hba, hbc, hac]
        | false =>
          have hba : strLe b a = true := (strLe_total a b).resolve_left (by simp [hab])
          simp [insertStr, hab, hba, hbc, hac]
      | false =>
        have hab : strLe a b = false := by
          cases h : strLe a b
          · rfl
          · exact absurd (strLe_trans h hbc) (by simp [hac])
        simp [insertStr, hab, hbc, hac]
    | false =>
      cases hac : strLe a c with
      | true =>
        have hba : strLe b a = false := by
          cases h : strLe b a
          · rfl
          · exact absurd (strLe_trans h hac) (by simp [hbc])
        simp [insertStr, hba, hbc, hac]
      | false => simp [insertStr, hbc, hac, insertStr_left_comm a b l]

instance : LeftCommutative insertStr :=
  ⟨fun a b l => insertStr_left_comm a b l⟩

/-- The canonical (sorted) enumeration of the members of a `Finset String`. -/
def sortedList (s : Finset String) : List String :=
  Multiset.foldr insertStr [] s.val

theorem foldr_insertStr_perm : ∀ l : List String, (List.foldr insertStr [] l).Perm l
  | [] => List.Perm.refl _
  | a :: l => (insertStr_perm a _).trans ((foldr_insertStr_perm l).cons a)

theorem coe_sortedList (s : Finset String) :
    ((sortedList s : List String) : Multiset String) = s.val := by
  have h : ∀ m : Multiset String,
      ((Multiset.foldr insertStr [] m : List String) : Multiset String) = m := by
    intro m
    refine Quotient.inductionOn m fun l => ?_
    show ((Multiset.foldr insertStr [] (l : Multiset String) : List String) :
      Multiset String) = (l : Multiset String)
    rw [Multiset.coe_foldr]
    exact Multiset.coe_eq_coe.2 (foldr_insertStr_perm l)
  exact h s.val

theorem mem_sortedList {s : Finset String} {a : String} :
    a ∈ sortedList s ↔ a ∈ s := by
  rw [← Multiset.mem_coe, coe_sortedList, ← Finset.mem_def]

theorem sortedList_nodup (s : Finset String) : (sortedList s).Nodup := by
  have h := s.nodup
  rw [← coe_sortedList s] at h
  exact Multiset.coe_nodup.1 h

/-- Enumeration of all subsets of a finite item set, each exactly once. -/
def subsetsOf (t : Finset String) : List (Finset String) :=
  (sortedList t).sublists.map List.toFinset

/-- Modelled from the spec: `mlxtend.frequent_patterns.fpgrowth` is external
library code, not part of this repository. Per spec §4.1 the miner returns
exactly the itemsets that checking every possible subset against the support
threshold would yield, each paired with its exact support, with no itemset
larger than `max_len`; `min_support` outside (0,1] and `max_len < 1` are input
errors surfaced before any mining starts (spec §7). -/
def fpgrowth (basket_df : List Txn) (min_support : ℚ) (max_len : Nat) :
    Except String (List (Finset String × ℚ)) :=
  if ¬ (0 < min_support ∧ min_support ≤ 1) then
    .error "min_support must be within the interval (0, 1]"
  else if max_len = 0 then
    .error "max_len must be at least 1"
  else
    .ok (((subsetsOf (vocabulary basket_df)).filter
        (fun s => decide (s ≠ ∅ ∧ s.card ≤ max_len ∧ min_support ≤ support basket_df s))).map
      (fun s => (s, support basket_df s)))

/-- A row of the frequent-itemset DataFrame returned by
`generate_frequent_itemsets`. -/
structure ItemsetRow where
  itemsets : Finset String
  support : ℚ
  itemset_length : Nat
deriving DecidableEq

/-- Embedding of `generate_frequent_itemsets` (src/market_basket.py, lines
9–33): run FP-Growth, then tag every itemset with its length. -/
def generate_frequent_itemsets (basket_df : List Txn) (min_support : ℚ)
    (max_len : Nat) : Except String (List ItemsetRow) :=
  (fpgrowth basket_df min_support max_len).map
    (fun l => l.map (fun p => ⟨p.1, p.2, p.1.card⟩))

/-- A rule row as produced by `association_rules`. `conviction` is `none` when
confidence = 1 (the library reports positive infinity there). -/
structure Rule where
  antecedents : Finset String
  consequents : Finset String
  support : ℚ
  confidence : ℚ
  lift : ℚ
  conviction : Option ℚ
deriving DecidableEq

/-- Support of a sub-itemset, looked up (not recomputed) in the itemset
collection handed to the rule generator. -/
def lookupSupport (itemsets : List (Finset String × ℚ)) (s : Finset String) : ℚ :=
  match itemsets.find? (fun p => decide (p.1 = s)) with
  | some p => p.2
  | none => 0

/-- Build the rule with antecedent `a` carved out of frequent itemset `s`
(support `supp`); all metrics derive from looked-up supports. -/
def mkRule (itemsets : List (Finset String × ℚ)) (s : Finset String) (supp : ℚ)
    (a : Finset String) : Rule :=
  let c := s \ a
  let suppC := lookupSupport itemsets c
  let conf := supp / lookupSupport itemsets a
  { antecedents := a
    consequents := c
    support := supp
    confidence := conf
    lift := conf / suppC
    conviction := if conf = 1 then none else some ((1 - suppC) / (1 - conf)) }

/-- Every antecedent→consequent split of every size ≥ 2 itemset. -/
def candidateRules (itemsets : List (Finset String × ℚ)) : List Rule :=
  itemsets.flatMap (fun p =>
    if 2 ≤ p.1.card then
      ((subsetsOf p.1).filter (fun a => decide (a ≠ ∅ ∧ a ≠ p.1))).map
        (mkRule itemsets p.1 p.2)
    else [])

/-- The metric strings `association_rules` accepts. -/
def validMetrics : List String :=
  ["support", "confidence", "lift", "conviction"]

/-- Does rule `r` meet threshold `t` on the chosen metric? An undefined
(infinite) conviction passes every threshold. -/
def rulePasses (metric : String) (t : ℚ) (r : Rule) : Bool :=
  if metric = "support" then decide (t ≤ r.support)
  else if metric = "confidence" then decide (t ≤ r.confidence)
  else if metric = "lift" then decide (t ≤ r.lift)
  else
    match r.conviction with
    | none => true
    | some c => decide (t ≤ c)

/-- Modelled from the spec: `mlxtend.frequent_patterns.association_rules` is
external library code, not part of this repository. Per spec §4.2 it
enumerates, for every itemset of size ≥ 2, every non-empty proper subset as
antecedent (complement = consequent), computes the metrics from looked-up
supports, and keeps a rule iff the chosen metric meets `min_threshold`; an
unknown metric string is an input error surfaced before any computation. -/
def association_rules (itemsets : List (Finset String × ℚ)) (metric : String)
    (min_threshold : ℚ) : Except String (List Rule) :=
  if metric ∈ validMetrics then
    .ok ((candidateRules itemsets).filter (rulePasses metric min_threshold))
  else
    .error "metric must be one of the supported metrics"

/-- A rule row after `generate_rules` added the display-string columns. -/
structure DisplayRule extends Rule where
  antecedents_str : String
  consequents_str : String
deriving DecidableEq

/-- The comma-joined display string of an itemset (the `', '.join(list(x))`
of the source, with the model's canonical iteration order). -/
def joinItems (s : Finset String) : String :=
  String.intercalate ", " (sortedList s)

/-- Attach the display-string columns to a rule. -/
def mkDisplay (r : Rule) : DisplayRule :=
  { toRule := r
    antecedents_str := joinItems r.antecedents
    consequents_str := joinItems r.consequents }

/-- "Stronger rule first" order used to sort rules by lift descending. -/
def liftGe (a b : DisplayRule) : Prop :=
  b.lift ≤ a.lift

instance : DecidableRel liftGe :=
  fun a b => inferInstanceAs (Decidable (b.lift ≤ a.lift))

instance : IsTotal DisplayRule liftGe :=
  ⟨fun a b => le_total b.lift a.lift⟩

instance : IsTrans DisplayRule liftGe :=
  ⟨fun _ _ _ h₁ h₂ => le_trans h₂ h₁⟩

/-- Embedding of `generate_rules` (src/market_basket.py, lines 39–79):
empty itemsets short-circuit to an empty frame; otherwise run
`association_rules`, apply the optional secondary confidence filter, add the
display strings, and sort by lift descending. -/
def generate_rules (itemsets : List ItemsetRow) (metric : String)
    (min_threshold : ℚ) (min_confidence : Option ℚ) :
    Except String (List DisplayRule) :=
  if itemsets = [] then .ok []
  else
    match association_rules (itemsets.map (fun r => (r.itemsets, r.support)))
        metric min_threshold with
    | .error e => .error e
    | .ok rules0 =>
      if rules0 = [] then .ok []
      else
        let rules1 := match min_confidence with
          | some mc => rules0.filter (fun r => decide (mc ≤ r.confidence))
          | none => rules0
        if rules1 = [] then .ok []
        else .ok (List.insertionSort liftGe (rules1.map mkDisplay))

/-- ASCII lowercasing of a character. -/
def lowerChar (c : Char) : Char :=
  if 65 ≤ c.toNat ∧ c.toNat ≤ 90 then Char.ofNat (c.toNat + 32) else c

/-- ASCII lowercasing of a label, as a character list. -/
def lowerStr (s : String) : List Char :=
  s.data.map lowerChar

/-- Is the first character list a prefix of the second? -/
def isPrefixB : List Char → List Char → Bool
  | [], _ => true
  | _ :: _, [] => false
  | a :: as, b :: bs => a == b && isPrefixB as bs

/-- Is `pat` a contiguous substring of the second list? -/
def containsSub (pat : List Char) : List Char → Bool
  | [] => pat.isEmpty
  | c :: rest => isPrefixB pat (c :: rest) || containsSub pat rest

/-- Case-insensitive substring containment: the model of
`Series.str.contains(pat, case=False)` for patterns free of regex
metacharacters (pandas interprets the pattern as a regular expression). -/
def containsCI (hay pat : String) : Bool :=
  containsSub (lowerStr pat) (lowerStr hay)

/-- Embedding of `filter_rules_by_product` (src/market_basket.py, lines
85–92): keep the rules whose joined antecedent or consequent string contains
the keyword, case-insensitively. -/
def filter_rules_by_product (rules : List DisplayRule) (product_name : String) :
    List DisplayRule :=
  if rules = [] then rules
  else rules.filter (fun r =>
    containsCI r.antecedents_str product_name ||
      containsCI r.consequents_str product_name)

/-- The secondary confidence filter of `generate_rules`, as a function. -/
def applyConfFilter (mc : Option ℚ) (rs : List Rule) : List Rule :=
  match mc with
  | some c => rs.filter (fun r => decide (c ≤ r.confidence))
  | none => rs

/-- Is the result a success? (`Except` has no `DecidableEq` here.) -/
def isOkB {β : Type} (e : Except String β) : Bool :=
  match e with
  | .ok _ => true
  | .error _ => false

/-! General lemmas about the embedding. -/

theorem applyConfFilter_nil (mc : Option ℚ) : applyConfFilter mc [] = [] := by
  cases mc <;> rfl

theorem containsSub_nil : ∀ hay : List Char, containsSub [] hay = true
  | [] => rfl
  | _ :: _ => rfl

/-- Two sublists of a duplicate-free list that are permutations of each other
are equal. -/
theorem sublist_eq_of_perm {α : Type} {l l₁ l₂ : List α} (h : l.Nodup)
    (s₁ : l₁.Sublist l) (s₂ : l₂.Sublist l) (p : l₁.Perm l₂) : l₁ = l₂ := by
  induction l generalizing l₁ l₂ with
  | nil => rw [List.sublist_nil.1 s₁, List.sublist_nil.1 s₂]
  | cons a t ih =>
    rw [List.nodup_cons] at h
    cases s₁ with
    | cons _ s₁' =>
      cases s₂ with
      | cons _ s₂' => exact ih h.2 s₁' s₂' p
      | cons₂ _ s₂' =>
        exact absurd (s₁'.subset (p.symm.subset (List.mem_cons_self a _))) h.1
    | cons₂ _ s₁' =>
      cases s₂ with
      | cons _ s₂' =>
        exact absurd (s₂'.subset (p.subset (List.mem_cons_self a _))) h.1
      | cons₂ _ s₂' => rw [ih h.2 s₁' s₂' p.cons_inv]

theorem mem_subsetsOf {S t : Finset String} : S ∈ subsetsOf t ↔ S ⊆ t := by
  unfold subsetsOf
  rw [List.mem_map]
  constructor
  · rintro ⟨l, hl, rfl⟩
    rw [List.mem_sublists] at hl
    intro x hx
    rw [List.mem_toFinset] at hx
    exact mem_sortedList.1 (hl.subset hx)
  · intro hS
    refine ⟨(sortedList t).filter (fun x => decide (x ∈ S)), ?_, ?_⟩
    · rw [List.mem_sublists]
      exact List.filter_sublist _
    · ext x
      simp only [List.mem_toFinset, List.mem_filter, decide_eq_true_eq]
      exact ⟨fun h => h.2, fun h => ⟨mem_sortedList.2 (hS h), h⟩⟩

theorem subsetsOf_nodup (t : Finset String) : (subsetsOf t).Nodup := by
  unfold subsetsOf
  refine List.Nodup.map_on ?_ (List.nodup_sublists.2 (sortedList_nodup t))
  intro l₁ h₁ l₂ h₂ heq
  rw [List.mem_sublists] at h₁ h₂
  exact sublist_eq_of_perm (sortedList_nodup t) h₁ h₂
    (List.perm_of_nodup_nodup_toFinset_eq (h₁.nodup (sortedList_nodup t))
      (h₂.nodup (sortedList_nodup t)) heq)

theorem subset_vocabulary_of_mem {txns : List Txn} {t : Txn} (h : t ∈ txns) :
    t ⊆ vocabulary txns := by
  induction txns with
  | nil => cases h
  | cons s rest ih =>
    rcases List.mem_cons.1 h with rfl | h'
    · exact Finset.subset_union_left
    · exact (ih h').trans Finset.subset_union_right

theorem subset_vocabulary_of_support_pos {txns : List Txn} {S : Finset String}
    (h : 0 < support txns S) : S ⊆ vocabulary txns := by
  have hc : supportCount txns S ≠ 0 := by
    intro h0
    unfold support at h
    rw [h0] at h
    norm_num at h
  have hpos : 0 < (txns.filter (fun t => decide (S ⊆ t))).length :=
    Nat.pos_of_ne_zero hc
  rw [List.length_pos] at hpos
  obtain ⟨t, ht⟩ := List.exists_mem_of_ne_nil _ hpos
  have htf := List.mem_filter.1 ht
  exact (of_decide_eq_true htf.2).trans (subset_vocabulary_of_mem htf.1)

/-- Normal form of a successful `generate_frequent_itemsets` run. -/
theorem gfi_ok {txns : List Txn} {ms : ℚ} {ml : Nat} {l : List ItemsetRow}
    (h : generate_frequent_itemsets txns ms ml = .ok l) :
    (0 < ms ∧ ms ≤ 1) ∧ ml ≠ 0 ∧
      l = ((subsetsOf (vocabulary txns)).filter
            (fun s => decide (s ≠ ∅ ∧ s.card ≤ ml ∧ ms ≤ support txns s))).map
          (fun s => ⟨s, support txns s, s.card⟩) := by
  unfold generate_frequent_itemsets fpgrowth at h
  by_cases h1 : ¬ (0 < ms ∧ ms ≤ 1)
  · rw [if_pos h1] at h
    exact absurd h (by simp [Except.map])
  · rw [if_neg h1] at h
    by_cases h2 : ml = 0
    · rw [if_pos h2] at h
      exact absurd h (by simp [Except.map])
    · rw [if_neg h2] at h
      refine ⟨not_not.1 h1, h2, ?_⟩
      simp only [Except.map] at h
      rw [Except.ok.injEq] at h
      rw [← h, List.map_map]
      rfl

/-- Normal form of `generate_rules` for a recognised metric. -/
theorem generate_rules_eq (its : List ItemsetRow) {metric : String}
    (hm : metric ∈ validMetrics) (t : ℚ) (mc : Option ℚ) :
    generate_rules its metric t mc =
      .ok (List.insertionSort liftGe
        ((applyConfFilter mc
            ((candidateRules (its.map (fun r => (r.itemsets, r.support)))).filter
              (rulePasses metric t))).map mkDisplay)) := by
  unfold generate_rules association_rules
  by_cases h0 : its = []
  · subst h0
    rw [if_pos rfl]
    simp [candidateRules, applyConfFilter_nil]
  · rw [if_neg h0, if_pos hm]
    dsimp only
    by_cases hb : (candidateRules (its.map (fun r => (r.itemsets, r.support)))).filter
        (rulePasses metric t) = []
    · rw [if_pos hb, hb, applyConfFilter_nil]
      rfl
    · rw [if_neg hb]
      show (if applyConfFilter mc _ = [] then Except.ok [] else _) = _
      by_cases hr : applyConfFilter mc ((candidateRules (its.map
          (fun r => (r.itemsets, r.support)))).filter (rulePasses metric t)) = []
      · rw [if_pos hr, hr]
        rfl
      · rw [if_neg hr]
        cases mc <;> rfl

/-- An unrecognised metric is reported as an error (for non-empty input). -/
theorem generate_rules_invalid {metric : String} (hm : metric ∉ validMetrics)
    (its : List ItemsetRow) (t : ℚ) (mc : Option ℚ) (h0 : its ≠ []) :
    generate_rules its metric t mc =
      .error "metric must be one of the supported metrics" := by
  unfold generate_rules association_rules
  rw [if_neg h0, if_neg hm]

/-! Concrete instances used by scenario checks, counterexamples and witnesses. -/

/-- Scenario A of the spec: transactions [{A,B}, {A,B}, {A,C}, {B,C}]. -/
def txnsA : List Txn := [{"A", "B"}, {"A", "B"}, {"A", "C"}, {"B", "C"}]

/-- The (itemset, support) pairs mined from a basket, `[]` on error. -/
def minedPairs (txns : List Txn) (ms : ℚ) (ml : Nat) : List (Finset String × ℚ) :=
  match generate_frequent_itemsets txns ms ml with
  | .ok l => l.map (fun r => (r.itemsets, r.support))
  | .error _ => []

/-- The itemset rows mined from Scenario A at min_support = 0.5, max_len = 3. -/
def itsA : List ItemsetRow :=
  match generate_frequent_itemsets txnsA (1/2) 3 with
  | .ok l => l
  | .error _ => []

/-- The rule rows produced by `generate_rules`, `[]` on error. -/
def okRules (its : List ItemsetRow) (metric : String) (t : ℚ)
    (mc : Option ℚ) : List DisplayRule :=
  match generate_rules its metric t mc with
  | .ok l => l
  | .error _ => []

/-- The (itemset, support) pairs of the Scenario A itemset rows. -/
def pairsA : List (Finset String × ℚ) :=
  itsA.map (fun r => (r.itemsets, r.support))

/-- Primary-pass rules of Scenario A for metric lift, threshold 0. -/
def rsLiftA : List Rule :=
  match association_rules pairsA "lift" 0 with
  | .ok rs => rs
  | .error _ => []

/-- A concrete rule {milk, tea} → {jam} used by the query-layer claims. -/
def ruleMilkTea : Rule :=
  { antecedents := {"milk", "tea"}
    consequents := {"jam"}
    support := 1/4
    confidence := 1/2
    lift := 1
    conviction := some 1 }

/-- `ruleMilkTea` with its display strings attached. -/
def dispMilkTea : DisplayRule := mkDisplay ruleMilkTea

/-- The claim-level match predicate of C4: the keyword is a case-insensitive
substring of some individual item label of the rule. -/
def itemLevelMatch (r : DisplayRule) (kw : String) : Prop :=
  ∃ x ∈ sortedList (r.antecedents ∪ r.consequents),
    containsSub (lowerStr kw) (lowerStr x) = true

section ConcreteEvaluation

attribute [local semireducible] Rat.add Rat.mul Rat.inv Rat.sub

set_option maxRecDepth 10000

theorem gfi_txnsA_eq : generate_frequent_itemsets txnsA (1/2) 3 = .ok itsA := rfl

/-- C1, counterexample: the claim's Scenario A values are wrong on the code.
With transactions [{A,B}, {A,B}, {A,C}, {B,C}] and min_support = 0.5, the
miner reports {A} with support 3/4 (A occurs in three of the four
transactions), not 0.5 as the claim states. -/
theorem C1_scenarioA_counterexample :
    ({"A"}, (3 : ℚ)/4) ∈ minedPairs txnsA (1/2) 3 ∧
      ({"A"}, (1 : ℚ)/2) ∉ minedPairs txnsA (1/2) 3 := by
  decide

/-- C1, amended: for every incidence matrix and min_support in (0,1],
`generate_frequent_itemsets` returns exactly the itemsets whose support meets
the threshold — the same set brute-force checking of every subset yields —
with no duplicates, and each reported support is the exact count of containing
transactions divided by N. For Scenario A at min_support = 0.5 the result is
exactly {A}:0.75, {B}:0.75, {C}:0.5, {A,B}:0.5. -/
theorem C1_miner_brute_force_equiv :
    (∀ (txns : List Txn) (ms : ℚ) (ml : Nat) (l : List ItemsetRow),
        generate_frequent_itemsets txns ms ml = .ok l →
          (∀ S : Finset String, (∃ r ∈ l, r.itemsets = S) ↔
              S ≠ ∅ ∧ S.card ≤ ml ∧ ms ≤ support txns S) ∧
          (l.map ItemsetRow.itemsets).Nodup ∧
          (∀ r ∈ l, r.support =
            (supportCount txns r.itemsets : ℚ) / (txns.length : ℚ))) ∧
      (minedPairs txnsA (1/2) 3).Perm
        [({"A"}, 3/4), ({"B"}, 3/4), ({"C"}, 1/2), ({"A", "B"}, 1/2)] := by
  constructor
  · intro txns ms ml l h
    obtain ⟨⟨hms0, hms1⟩, hml, rfl⟩ := gfi_ok h
    refine ⟨?_, ?_, ?_⟩
    · intro S
      constructor
      · rintro ⟨r, hr, rfl⟩
        rw [List.mem_map] at hr
        obtain ⟨s, hs, rfl⟩ := hr
        exact of_decide_eq_true (List.mem_filter.1 hs).2
      · rintro ⟨hne, hcard, hsup⟩
        refine ⟨⟨S, support txns S, S.card⟩, ?_, rfl⟩
        rw [List.mem_map]
        refine ⟨S, ?_, rfl⟩
        rw [List.mem_filter]
        refine ⟨?_, decide_eq_true ⟨hne, hcard, hsup⟩⟩
        exact mem_subsetsOf.2
          (subset_vocabulary_of_support_pos (lt_of_lt_of_le hms0 hsup))
    · rw [List.map_map]
      have hid : (ItemsetRow.itemsets ∘
          fun s => (⟨s, support txns s, s.card⟩ : ItemsetRow)) = id := rfl
      rw [hid, List.map_id]
      exact (subsetsOf_nodup _).filter _
    · intro r hr
      rw [List.mem_map] at hr
      obtain ⟨s, hs, rfl⟩ := hr
      rfl
  · decide

/-- Witness for C1: the Scenario A run satisfies the no-duplicates clause. -/
theorem C1_miner_brute_force_equiv_witness :
    (itsA.map ItemsetRow.itemsets).Nodup :=
  (C1_miner_brute_force_equiv.1 txnsA (1/2) 3 itsA gfi_txnsA_eq).2.1

/-- C2: for every itemset collection, primary metric, threshold and supplied
min_confidence, `generate_rules` applies the confidence requirement after the
primary metric filter: the result holds exactly the primary-pass rules whose
confidence reaches min_confidence, each with all its metric values unchanged
(only the display strings are added, and the rows re-ordered by lift). -/
theorem C2_confidence_secondary_filter (its : List ItemsetRow) (metric : String)
    (t mc : ℚ) (rs : List Rule)
    (h : association_rules (its.map (fun r => (r.itemsets, r.support))) metric t
      = .ok rs) :
    ∀ l, generate_rules its metric t (some mc) = .ok l →
      l.Perm ((rs.filter (fun r => decide (mc ≤ r.confidence))).map mkDisplay) := by
  intro l hl
  have hm : metric ∈ validMetrics := by
    by_contra hm
    unfold association_rules at h
    rw [if_neg hm] at h
    cases h
  have hrs : rs = (candidateRules (its.map (fun r => (r.itemsets, r.support)))).filter
      (rulePasses metric t) := by
    unfold association_rules at h
    rw [if_pos hm, Except.ok.injEq] at h
    exact h.symm
  rw [generate_rules_eq its hm t (some mc), Except.ok.injEq] at hl
  rw [← hl]
  subst hrs
  exact List.perm_insertionSort liftGe _

/-- Primary-pass rules of Scenario A after the secondary confidence filter
at min_confidence = 0.5. -/
def rulesLiftHalf : List DisplayRule := okRules itsA "lift" 0 (some (1/2))

theorem ar_itsA_lift_eq :
    association_rules (itsA.map (fun r => (r.itemsets, r.support))) "lift" 0
      = .ok rsLiftA := by
  rfl

theorem gr_liftHalf_eq :
    generate_rules itsA "lift" 0 (some (1/2)) = .ok rulesLiftHalf := by
  rfl

/-- Witness for C2 on the Scenario A rules. -/
theorem C2_confidence_secondary_filter_witness :
    rulesLiftHalf.Perm
      ((rsLiftA.filter (fun r => decide ((1 : ℚ)/2 ≤ r.confidence))).map
        mkDisplay) :=
  C2_confidence_secondary_filter itsA "lift" 0 (1/2) rsLiftA ar_itsA_lift_eq
    rulesLiftHalf gr_liftHalf_eq

/-- C3, counterexample: an out-of-range `min_confidence` is not surfaced as an
error. With the Scenario A itemsets, metric lift and min_confidence = 2 ∉
[0,1], `generate_rules` returns a normal empty result (no error), although
the same call without the confidence filter produces rules — the invalid
parameter was silently applied as a filter. -/
theorem C3_min_confidence_not_validated_counterexample :
    generate_rules itsA "lift" 0 (some 2) = .ok [] ∧
      okRules itsA "lift" 0 none ≠ [] := by
  constructor
  · rfl
  · decide

/-- C3, amended: `min_support` outside (0,1] and `max_len` < 1 are surfaced by
the miner before any mining, and an unknown metric string is surfaced by the
rule generator (for non-empty input) before any rule computation; but
`min_confidence` is never validated — for the recognised metric lift the call
succeeds for every `min_confidence` value, out-of-range values acting as an
ordinary filter. -/
theorem C3_fail_fast_amended :
    (∀ (txns : List Txn) (ms : ℚ) (ml : Nat),
        (¬ (0 < ms ∧ ms ≤ 1) ∨ ml = 0) →
          isOkB (generate_frequent_itemsets txns ms ml) = false) ∧
    (∀ (its : List ItemsetRow) (metric : String) (t : ℚ) (mc : Option ℚ),
        its ≠ [] → metric ∉ validMetrics →
          isOkB (generate_rules its metric t mc) = false) ∧
    (∀ (its : List ItemsetRow) (t mc : ℚ),
        isOkB (generate_rules its "lift" t (some mc)) = true) := by
  refine ⟨?_, ?_, ?_⟩
  · intro txns ms ml hinv
    unfold generate_frequent_itemsets fpgrowth
    rcases hinv with h1 | h2
    · rw [if_pos h1]
      rfl
    · by_cases h1 : ¬ (0 < ms ∧ ms ≤ 1)
      · rw [if_pos h1]
        rfl
      · rw [if_neg h1, if_pos h2]
        rfl
  · intro its metric t mc h0 hm
    rw [generate_rules_invalid hm its t mc h0]
    rfl
  · intro its t mc
    rw [generate_rules_eq its (by decide) t (some mc)]
    rfl

/-- Witness for C3 (amended) at concrete invalid and valid parameters. -/
theorem C3_fail_fast_witness :
    isOkB (generate_frequent_itemsets txnsA 2 3) = false ∧
      isOkB (generate_rules itsA "foo" 0 none) = false ∧
      isOkB (generate_rules itsA "lift" 0 (some 2)) = true :=
  ⟨C3_fail_fast_amended.1 txnsA 2 3 (Or.inl (by norm_num)),
   C3_fail_fast_amended.2.1 itsA "foo" 0 none (by decide) (by decide),
   C3_fail_fast_amended.2.2 itsA 0 2⟩

/-- C4, counterexample: the fuzzy search matches against the comma-joined
label strings, not against individual item labels. The keyword "k, t" is kept
for the rule {milk, tea} → {jam} (it spans the join of "milk" and "tea"),
although it is a substring of no individual item label of that rule. -/
theorem C4_cross_item_match_counterexample :
    filter_rules_by_product [dispMilkTea] "k, t" = [dispMilkTea] ∧
      ¬ itemLevelMatch dispMilkTea "k, t" := by
  constructor
  · rfl
  · unfold itemLevelMatch
    decide

/-- C4, amended: `filter_rules_by_product` returns exactly the rules in which
the keyword, compared case-insensitively, is a substring of the comma-joined
antecedent label string or of the comma-joined consequent label string (not
of a single label: a keyword may span the ", " join, and pandas additionally
interprets it as a regular expression — the model covers metacharacter-free
keywords); it never errors on the empty keyword, which matches all rules. -/
theorem C4_joined_string_match (rules : List DisplayRule) (kw : String) :
    (∀ r, r ∈ filter_rules_by_product rules kw ↔
        r ∈ rules ∧ (containsCI r.antecedents_str kw = true ∨
          containsCI r.consequents_str kw = true)) ∧
      filter_rules_by_product rules "" = rules := by
  constructor
  · intro r
    unfold filter_rules_by_product
    by_cases h : rules = []
    · subst h
      simp
    · rw [if_neg h, List.mem_filter]
      simp [Bool.or_eq_true]
  · unfold filter_rules_by_product
    by_cases h : rules = []
    · rw [if_pos h]
    · rw [if_neg h, List.filter_eq_self]
      intro r _
      have h1 : containsCI r.antecedents_str "" = true := containsSub_nil _
      rw [h1]
      rfl

/-- Witness for C4 (amended) on the concrete rule {milk, tea} → {jam}. -/
theorem C4_joined_string_match_witness :
    (dispMilkTea ∈ filter_rules_by_product [dispMilkTea] "milk" ↔
        dispMilkTea ∈ [dispMilkTea] ∧
          (containsCI dispMilkTea.antecedents_str "milk" = true ∨
            containsCI dispMilkTea.consequents_str "milk" = true)) ∧
      filter_rules_by_product [dispMilkTea] "" = [dispMilkTea] :=
  ⟨(C4_joined_string_match [dispMilkTea] "milk").1 dispMilkTea,
   (C4_joined_string_match [dispMilkTea] "").2⟩

/-- C5: with max_len = k ≥ 1, no itemset returned by
`generate_frequent_itemsets` has more than k members. -/
theorem C5_max_len_cap (txns : List Txn) (ms : ℚ) (k : Nat)
    (l : List ItemsetRow) (_hk : 1 ≤ k)
    (h : generate_frequent_itemsets txns ms k = .ok l) :
    ∀ r ∈ l, r.itemsets.card ≤ k := by
  obtain ⟨_, _, rfl⟩ := gfi_ok h
  intro r hr
  rw [List.mem_map] at hr
  obtain ⟨s, hs, rfl⟩ := hr
  exact (of_decide_eq_true (List.mem_filter.1 hs).2).2.1

/-- Witness for C5: the Scenario A itemset {A, B} respects max_len = 3. -/
theorem C5_max_len_cap_witness :
    (⟨{"A", "B"}, 1/2, 2⟩ : ItemsetRow).itemsets.card ≤ 3 :=
  C5_max_len_cap txnsA (1/2) 3 itsA (by norm_num) gfi_txnsA_eq
    ⟨{"A", "B"}, 1/2, 2⟩ (by decide)

/-- C6: empty results are returned, never raised: an empty itemset collection,
a collection with no itemset of size ≥ 2, and filters that no rule survives
all yield a successful empty rule collection. -/
theorem C6_empty_results_are_ok :
    (∀ (metric : String) (t : ℚ) (mc : Option ℚ),
        generate_rules [] metric t mc = .ok []) ∧
    (∀ (its : List ItemsetRow) (metric : String) (t : ℚ) (mc : Option ℚ),
        metric ∈ validMetrics → (∀ r ∈ its, r.itemsets.card < 2) →
          generate_rules its metric t mc = .ok []) ∧
    (∀ (its : List ItemsetRow) (metric : String) (t : ℚ) (mc : Option ℚ),
        metric ∈ validMetrics →
        applyConfFilter mc
            ((candidateRules (its.map (fun r => (r.itemsets, r.support)))).filter
              (rulePasses metric t)) = [] →
          generate_rules its metric t mc = .ok []) := by
  refine ⟨fun metric t mc => rfl, ?_, ?_⟩
  · intro its metric t mc hm hsmall
    rw [generate_rules_eq its hm t mc]
    have hcand : candidateRules (its.map (fun r => (r.itemsets, r.support))) = [] := by
      unfold candidateRules
      rw [List.flatMap_eq_nil_iff]
      intro p hp
      rw [List.mem_map] at hp
      obtain ⟨r, hr, rfl⟩ := hp
      rw [if_neg]
      exact Nat.not_le.2 (hsmall r hr)
    rw [hcand]
    simp [applyConfFilter_nil]
  · intro its metric t mc hm hempty
    rw [generate_rules_eq its hm t mc, hempty]
    rfl

/-- Witness for C6 at concrete empty-result inputs: the empty collection, a
single size-1 itemset, and a lift threshold (10) that no Scenario A rule
meets. -/
theorem C6_empty_results_are_ok_witness :
    generate_rules [] "lift" 1 none = .ok [] ∧
      generate_rules [⟨{"A"}, 3/4, 1⟩] "lift" 1 none = .ok [] ∧
      generate_rules itsA "lift" 10 none = .ok [] :=
  ⟨C6_empty_results_are_ok.1 "lift" 1 none,
   C6_empty_results_are_ok.2.1 [⟨{"A"}, 3/4, 1⟩] "lift" 1 none (by decide)
     (by decide),
   C6_empty_results_are_ok.2.2 itsA "lift" 10 none (by decide) (by rfl)⟩

/-- C7: every successful `generate_rules` result is sorted by lift descending
(`liftGe`); the output order is a function of the input, hence deterministic,
ties included. -/
theorem C7_sorted_by_lift_desc (its : List ItemsetRow) (metric : String)
    (t : ℚ) (mc : Option ℚ) (l : List DisplayRule)
    (h : generate_rules its metric t mc = .ok l) :
    l.Sorted liftGe := by
  by_cases hm : metric ∈ validMetrics
  · rw [generate_rules_eq its hm t mc, Except.ok.injEq] at h
    rw [← h]
    exact List.sorted_insertionSort liftGe _
  · by_cases h0 : its = []
    · subst h0
      unfold generate_rules at h
      rw [if_pos rfl, Except.ok.injEq] at h
      rw [← h]
      exact List.sorted_nil
    · rw [generate_rules_invalid hm its t mc h0] at h
      cases h

/-- The Scenario A rules for metric confidence at threshold 0.5. -/
def rulesConfA : List DisplayRule := okRules itsA "confidence" (1/2) none

theorem gr_confA_eq :
    generate_rules itsA "confidence" (1/2) none = .ok rulesConfA := by
  rfl

/-- Witness for C7 on the Scenario A confidence rules. -/
theorem C7_sorted_by_lift_desc_witness : rulesConfA.Sorted liftGe :=
  C7_sorted_by_lift_desc itsA "confidence" (1/2) none rulesConfA gr_confA_eq

/-- C8: raising min_support never increases the itemset count, and (for
metric lift) raising min_threshold never increases the rule count. -/
theorem C8_threshold_monotonicity :
    (∀ (txns : List Txn) (s₁ s₂ : ℚ) (ml : Nat) (l₁ l₂ : List ItemsetRow),
        s₁ ≤ s₂ →
        generate_frequent_itemsets txns s₁ ml = .ok l₁ →
        generate_frequent_itemsets txns s₂ ml = .ok l₂ →
        l₂.length ≤ l₁.length) ∧
    (∀ (its : List ItemsetRow) (t₁ t₂ : ℚ) (mc : Option ℚ)
        (l₁ l₂ : List DisplayRule),
        t₁ ≤ t₂ →
        generate_rules its "lift" t₁ mc = .ok l₁ →
        generate_rules its "lift" t₂ mc = .ok l₂ →
        l₂.length ≤ l₁.length) := by
  constructor
  · intro txns s₁ s₂ ml l₁ l₂ hs h₁ h₂
    obtain ⟨_, _, rfl⟩ := gfi_ok h₁
    obtain ⟨_, _, rfl⟩ := gfi_ok h₂
    rw [List.length_map, List.length_map]
    refine List.Sublist.length_le (List.monotone_filter_right _ ?_)
    intro s hs2
    have h3 := of_decide_eq_true hs2
    exact decide_eq_true ⟨h3.1, h3.2.1, le_trans hs h3.2.2⟩
  · intro its t₁ t₂ mc l₁ l₂ ht h₁ h₂
    have hm : ("lift" : String) ∈ validMetrics := by decide
    rw [generate_rules_eq its hm t₁ mc, Except.ok.injEq] at h₁
    rw [generate_rules_eq its hm t₂ mc, Except.ok.injEq] at h₂
    rw [← h₁, ← h₂,
      (List.perm_insertionSort liftGe _).length_eq,
      (List.perm_insertionSort liftGe _).length_eq,
      List.length_map, List.length_map]
    have himp : ∀ r : Rule,
        rulePasses "lift" t₂ r = true → rulePasses "lift" t₁ r = true := by
      intro r h2
      have h3 : decide (t₂ ≤ r.lift) = true := h2
      exact decide_eq_true (le_trans ht (of_decide_eq_true h3))
    cases mc with
    | none =>
      exact List.Sublist.length_le (List.monotone_filter_right _ himp)
    | some c =>
      exact List.Sublist.length_le
        ((List.monotone_filter_right _ himp).filter _)

/-- The Scenario A itemset rows at the raised min_support = 0.75. -/
def its34 : List ItemsetRow :=
  match generate_frequent_itemsets txnsA (3/4) 3 with
  | .ok l => l
  | .error _ => []

theorem gfi_txnsA34_eq :
    generate_frequent_itemsets txnsA (3/4) 3 = .ok its34 := by
  rfl

/-- Scenario A lift rules at threshold 8/9 (all pass). -/
def rulesLift89 : List DisplayRule := okRules itsA "lift" (8/9) none

/-- Scenario A lift rules at threshold 1 (none passes). -/
def rulesLift1 : List DisplayRule := okRules itsA "lift" 1 none

theorem gr_lift89_eq :
    generate_rules itsA "lift" (8/9) none = .ok rulesLift89 := by
  rfl

theorem gr_lift1_eq :
    generate_rules itsA "lift" 1 none = .ok rulesLift1 := by
  rfl

/-- Witness for C8 on Scenario A: raising min_support 0.5 → 0.75 and the lift
threshold 8/9 → 1. -/
theorem C8_threshold_monotonicity_witness :
    its34.length ≤ itsA.length ∧ rulesLift1.length ≤ rulesLift89.length :=
  ⟨C8_threshold_monotonicity.1 txnsA (1/2) (3/4) 3 itsA its34 (by norm_num)
      gfi_txnsA_eq gfi_txnsA34_eq,
   C8_threshold_monotonicity.2 itsA (8/9) 1 none rulesLift89 rulesLift1
      (by norm_num) gr_lift89_eq gr_lift1_eq⟩

/-- C9: `filter_rules_by_product` returns a row-subset of its input (each
retained row unchanged, relative order preserved, so a lift-descending input
stays lift-descending), and an empty input is returned as-is. -/
theorem C9_filter_rules_frame (rules : List DisplayRule) (kw : String) :
    (filter_rules_by_product rules kw).Sublist rules ∧
      filter_rules_by_product [] kw = [] ∧
      (rules.Sorted liftGe → (filter_rules_by_product rules kw).Sorted liftGe) := by
  refine ⟨?_, ?_, ?_⟩
  · unfold filter_rules_by_product
    by_cases h : rules = []
    · rw [if_pos h]
    · rw [if_neg h]
      exact List.filter_sublist _
  · rfl
  · intro hs
    unfold filter_rules_by_product
    by_cases h : rules = []
    · rw [if_pos h]
      exact hs
    · rw [if_neg h]
      exact List.Pairwise.sublist (List.filter_sublist _) hs

/-- Witness for C9 on the Scenario A confidence rules with keyword "a". -/
theorem C9_filter_rules_frame_witness :
    (filter_rules_by_product rulesConfA "a").Sublist rulesConfA ∧
      (filter_rules_by_product rulesConfA "a").Sorted liftGe :=
  ⟨(C9_filter_rules_frame rulesConfA "a").1,
   (C9_filter_rules_frame rulesConfA "a").2.2 (by decide)⟩

/-- C10: every row of a successful `generate_frequent_itemsets` result carries
`itemset_length` equal to the cardinality of its itemset. -/
theorem C10_itemset_length_is_card (txns : List Txn) (ms : ℚ) (ml : Nat)
    (l : List ItemsetRow) (h : generate_frequent_itemsets txns ms ml = .ok l) :
    ∀ r ∈ l, r.itemset_length = r.itemsets.card := by
  obtain ⟨_, _, rfl⟩ := gfi_ok h
  intro r hr
  rw [List.mem_map] at hr
  obtain ⟨s, hs, rfl⟩ := hr
  rfl

/-- Witness for C10 on the Scenario A row for {A, B}. -/
theorem C10_itemset_length_is_card_witness :
    (⟨{"A", "B"}, 1/2, 2⟩ : ItemsetRow).itemset_length =
      (⟨{"A", "B"}, 1/2, 2⟩ : ItemsetRow).itemsets.card :=
  C10_itemset_length_is_card txnsA (1/2) 3 itsA gfi_txnsA_eq
    ⟨{"A", "B"}, 1/2, 2⟩ (by decide)

end ConcreteEvaluation

end ItemRelationDSS
